import Mathlib

/-!
# A verification development for the `fast-xml` library

`fast-xml` is an XML pull parser with a serde data-binding deserializer on
top.  This file gives a shallow embedding of the parts of the library that
the verified properties below are about:

* the error taxonomy, translated from `src/errors.rs`;
* the escape codec, the event reader and the deserialization driver.  The
  implementation of those components is not part of the sources available
  here (only `src/errors.rs`, the test suite `tests/serde-de.rs` and a
  benchmark are), so they are modelled from the specification, as the
  individual doc comments state.  The reader is modelled in the
  configuration the deserializer uses: `check_end_names` on, whitespace-only
  text trimmed away, empty elements expanded into a `Start`/`End` pair, and
  comments, processing instructions, DOCTYPE and the XML declaration
  skipped, so that the deserialization driver sees only `Start`, `End`,
  `Text` and `CData` events (plus end of stream).
-/

namespace FastXml

/-- Attribute parsing error kinds (spec §4.2; the `AttrError` referenced by
`src/errors.rs`). -/
inductive AttrError
  | expectedEq
  | expectedQuote
  | unquotedValue
  | duplicated
  | invalidName
deriving DecidableEq

/-- Escape-decoder errors (spec §4.3; the `EscapeError` referenced by
`src/errors.rs`). -/
inductive EscapeError
  | unrecognizedSymbol (entity : String)
  | invalidCodepoint (code : Nat)
  | unterminatedEntity
deriving DecidableEq

/-- Reader-level errors, translated from `Error` in `src/errors.rs`.
The `Io` and `Utf8` variants carry foreign payloads (`std::io::Error`,
`Utf8Error`) and cannot arise in this pure model, so they are omitted. -/
inductive Error
  | unexpectedEof (context : String)
  | endEventMismatch (expected : String) (found : String)
  | unexpectedToken (token : String)
  | unexpectedBang (byte : Nat)
  | textNotFound
  | xmlDeclWithoutVersion (found : Option String)
  | invalidAttr (e : AttrError)
  | escapeError (e : EscapeError)
deriving DecidableEq

/-- Deserialization errors, translated from `DeError` in `src/errors.rs`.
`InvalidInt` and `InvalidFloat` carry the standard library's parse errors in
the source; here they carry the offending text.  `UnexpectedStart` and
`UnexpectedEnd` carry the element name (a byte string in the source). -/
inductive DeError
  | custom (msg : String)
  | invalidXml (e : Error)
  | invalidInt (text : String)
  | invalidFloat (text : String)
  | invalidBoolean (text : String)
  | keyNotRead
  | unexpectedStart (name : String)
  | unexpectedEnd (name : String)
  | unexpectedEof
  | expectedStart
  | unsupported (reason : String)
  | tooManyEvents (limit : Nat)
deriving DecidableEq

/-- Modelled from the spec: the events of §3 as the deserialization driver
sees them.  `Empty` is expanded into `start`/`end_`, and `Comment`, `Decl`,
`PI` and `DocType` are skipped by the driver-facing reader, so only these
four kinds remain; end of stream (`Eof`) is the end of the event list.
Attributes are parsed eagerly into name/value pairs with the value still
escaped (spec §4.2). -/
inductive DeEvent
  | start (name : String) (attrs : List (String × String))
  | end_ (name : String)
  | text (content : String)
  | cdata (content : String)
deriving DecidableEq

/-! ## Character-list helpers (total, structural) -/

/-- XML whitespace. -/
def isWs (c : Char) : Bool := c = ' ' || c = '\n' || c = '\t' || c = '\r'

/-- Does `l` begin with the pattern `pat`? -/
def listStartsWith : List Char → List Char → Bool
  | [], _ => true
  | _ :: _, [] => false
  | p :: ps, c :: cs => p = c && listStartsWith ps cs

/-- Split at the first occurrence of the character `stop`: returns the part
before it and the part after it (the `stop` itself removed), or `none` if
`stop` does not occur. -/
def splitUntilChar (stop : Char) : List Char → Option (List Char × List Char)
  | [] => none
  | c :: r =>
    if c = stop then some ([], r)
    else (splitUntilChar stop r).map (fun p => (c :: p.1, p.2))

/-- Split at the first occurrence of the character sequence `pat`: returns
the part before it and the part after it, or `none` if `pat` does not
occur. -/
def splitSeq (pat : List Char) : List Char → Option (List Char × List Char)
  | [] => none
  | c :: r =>
    if listStartsWith pat (c :: r) then some ([], (c :: r).drop pat.length)
    else (splitSeq pat r).map (fun p => (c :: p.1, p.2))

/-- Drop whitespace from both ends of a character list. -/
def trimChars (l : List Char) : List Char :=
  ((l.dropWhile isWs).reverse.dropWhile isWs).reverse

/-- Trim surrounding whitespace of a string. -/
def trimStr (s : String) : String := String.mk (trimChars s.toList)

/-! ## Escape codec

Modelled from the spec (§4.3): `unescape` recognizes exactly `&lt;`, `&gt;`,
`&amp;`, `&apos;`, `&quot;`, `&#NNN;` (decimal) and `&#xHHHH;` (hex); numeric
references must denote a valid Unicode scalar (1..=0x10FFFF, excluding
surrogates); unknown named entities are `UnrecognizedSymbol`. -/

/-- The value of one hexadecimal digit. -/
def hexVal (c : Char) : Option Nat :=
  if '0' ≤ c ∧ c ≤ '9' then some (c.toNat - '0'.toNat)
  else if 'a' ≤ c ∧ c ≤ 'f' then some (c.toNat - 'a'.toNat + 10)
  else if 'A' ≤ c ∧ c ≤ 'F' then some (c.toNat - 'A'.toNat + 10)
  else none

/-- The value of one decimal digit. -/
def decVal (c : Char) : Option Nat :=
  if '0' ≤ c ∧ c ≤ '9' then some (c.toNat - '0'.toNat) else none

/-- Fold a list of digits in the given base; `none` if empty or a digit is
invalid. -/
def digitsToNat (digit : Char → Option Nat) (base : Nat) (l : List Char) : Option Nat :=
  match l with
  | [] => none
  | _ =>
    l.foldl
      (fun acc c =>
        match acc, digit c with
        | some a, some d => some (a * base + d)
        | _, _ => none)
      (some 0)

/-- Is `n` a valid Unicode scalar value for a character reference
(spec §4.3: 1..=0x10FFFF, excluding the surrogate range)? -/
def validScalar (n : Nat) : Bool :=
  1 ≤ n && n ≤ 0x10FFFF && !(0xD800 ≤ n && n ≤ 0xDFFF)

/-- Decode the body of one entity reference (the text between `&` and `;`). -/
def decodeEntity (ent : List Char) : Except EscapeError Char :=
  match ent with
  | ['l', 't'] => .ok '<'
  | ['g', 't'] => .ok '>'
  | ['a', 'm', 'p'] => .ok '&'
  | ['a', 'p', 'o', 's'] => .ok '\''
  | ['q', 'u', 'o', 't'] => .ok '"'
  | '#' :: rest =>
    let num :=
      match rest with
      | 'x' :: ds => digitsToNat hexVal 16 ds
      | 'X' :: ds => digitsToNat hexVal 16 ds
      | ds => digitsToNat decVal 10 ds
    match num with
    | some n =>
      if validScalar n then .ok (Char.ofNat n)
      else .error (.invalidCodepoint n)
    | none => .error (.unrecognizedSymbol (String.mk ent))
  | _ => .error (.unrecognizedSymbol (String.mk ent))

/-- Unescape a character list; fuel-structural (each step consumes at least
one character, so `l.length + 1` fuel always suffices). -/
def unescapeAux : Nat → List Char → Except EscapeError (List Char)
  | 0, _ => .error .unterminatedEntity
  | _ + 1, [] => .ok []
  | fuel + 1, '&' :: r =>
    match splitUntilChar ';' r with
    | some (ent, rest) =>
      match decodeEntity ent with
      | .ok c => (unescapeAux fuel rest).map (fun l => c :: l)
      | .error e => .error e
    | none => .error .unterminatedEntity
  | fuel + 1, c :: r => (unescapeAux fuel r).map (fun l => c :: l)

/-- `unescape(bytes)` of spec §4.3. -/
def unescape (s : String) : Except EscapeError String :=
  (unescapeAux (s.toList.length + 1) s.toList).map String.mk

/-! ## Attribute iterator

Modelled from the spec (§4.2), strict mode: every attribute must match
`name \s* = \s* ("value" | 'value')`; duplicate names within one element are
`Duplicated`; the value is returned still escaped. -/

/-- One step of the strict attribute iterator over the bytes of a start tag
after the element name; fuel-structural (each attribute consumes at least
one character). -/
def parseAttrsAux : Nat → List String → List Char → Except Error (List (String × String))
  | 0, _, _ => .error (.unexpectedEof "attributes")
  | fuel + 1, seen, l =>
    match l.dropWhile isWs with
    | [] => .ok []
    | l1 =>
      let nameChars := l1.takeWhile (fun c => !(isWs c) && c ≠ '=')
      if nameChars.isEmpty then .error (.invalidAttr .invalidName)
      else
        match (l1.drop nameChars.length).dropWhile isWs with
        | '=' :: r1 =>
          match r1.dropWhile isWs with
          | q :: r2 =>
            if q = '"' ∨ q = '\'' then
              match splitUntilChar q r2 with
              | some (v, rest) =>
                let nm := String.mk nameChars
                if seen.contains nm then .error (.invalidAttr .duplicated)
                else
                  (parseAttrsAux fuel (nm :: seen) rest).map
                    (fun tail => (nm, String.mk v) :: tail)
              | none => .error (.unexpectedEof "attribute value")
            else .error (.invalidAttr .expectedQuote)
          | [] => .error (.unexpectedEof "attribute value")
        | _ => .error (.invalidAttr .expectedEq)

/-- Parse the attribute span of a start tag into name/value pairs. -/
def parseAttrs (l : List Char) : Except Error (List (String × String)) :=
  parseAttrsAux (l.length + 1) [] l

/-! ## Event reader

Modelled from the spec (§4.1): the streaming pull parser, in the
configuration the deserialization driver uses (see the module comment).
The whole input is tokenized into the list of driver-facing events that the
reader would deliver before its first error, paired with that error when
there is one; pulling events past the produced list surfaces the error,
and an exhausted list with no error is `Eof`.  This mirrors the lazy pull
reader: a deserialization that succeeds without reading past the good
prefix never observes a later reader error. -/

/-- Pop the expected end-tag name for `</found>` (spec §4.1 nesting check,
`check_end_names` on): on `End`, pop and compare; mismatch fails with
`EndEventMismatch { expected, found }`. -/
def closeTag (stack : List String) (found : String) : Except Error (List String) :=
  match stack with
  | [] => .error (.endEventMismatch "" found)
  | top :: rest =>
    if top = found then .ok rest
    else .error (.endEventMismatch top found)

/-- Skip a `<!DOCTYPE …>` body, tracking the depth of nested `[...]`
(spec §4.1); returns the remaining input after the closing `>`. -/
def splitDoctype : Nat → List Char → Option (List Char)
  | _, [] => none
  | depth, c :: r =>
    if c = '[' then splitDoctype (depth + 1) r
    else if c = ']' then splitDoctype (depth - 1) r
    else if c = '>' ∧ depth = 0 then some r
    else splitDoctype depth r

/-- Scan a tag's content up to the closing `>`, where `>` inside a quoted
attribute value does not terminate the tag; the state is the currently open
quote character, if any. -/
def splitTag : Option Char → List Char → Option (List Char × List Char)
  | _, [] => none
  | some q, c :: r =>
    (splitTag (if c = q then none else some q) r).map (fun p => (c :: p.1, p.2))
  | none, c :: r =>
    if c = '>' then some ([], r)
    else if c = '"' ∨ c = '\'' then
      (splitTag (some c) r).map (fun p => (c :: p.1, p.2))
    else
      (splitTag none r).map (fun p => (c :: p.1, p.2))

/-- The tokenizer: turns the input characters into the driver-facing event
list plus the reader error cutting the stream short, if any.  The `stack`
is the reader's stack of expected end-tag names (spec §3, reader state).
Fuel-structural: every step consumes at least one character, so
`input.length + 1` fuel always suffices. -/
def tokenizeAux : Nat → List String → List Char → List DeEvent × Option Error
  | 0, _, _ => ([], some (.unexpectedEof "input"))
  | _ + 1, _, [] => ([], none)
  | fuel + 1, stack, c :: r =>
    if c = '<' then
    if listStartsWith ['!', '-', '-'] r then
      -- `<!--` … `-->` is a Comment (checked body verification is off);
      -- comments are skipped by the driver-facing reader.
      match splitSeq ['-', '-', '>'] (r.drop 3) with
      | some (_, rest) => tokenizeAux fuel stack rest
      | none => ([], some (.unexpectedEof "Comment"))
    else if listStartsWith ['!', '[', 'C', 'D', 'A', 'T', 'A', '['] r then
      -- `<![CDATA[` … `]]>`: content reported verbatim.
      match splitSeq [']', ']', '>'] (r.drop 8) with
      | some (body, rest) =>
        let p := tokenizeAux fuel stack rest
        (.cdata (String.mk body) :: p.1, p.2)
      | none => ([], some (.unexpectedEof "CData"))
    else if listStartsWith ['!', 'D', 'O', 'C', 'T', 'Y', 'P', 'E'] r then
      -- `<!DOCTYPE` … `>`; skipped by the driver-facing reader.
      match splitDoctype 0 (r.drop 8) with
      | some rest => tokenizeAux fuel stack rest
      | none => ([], some (.unexpectedEof "DOCTYPE"))
    else
      match r with
      | [] => ([], some (.unexpectedEof "Tag"))
      | c2 :: r2 =>
        if c2 = '!' then
          -- `<!` followed by anything but Comment/CDATA/DOCTYPE is a hard
          -- error (`UnexpectedBang`).
          match r2 with
          | [] => ([], some (.unexpectedEof "Bang"))
          | b :: _ => ([], some (.unexpectedBang b.toNat))
        else if c2 = '?' then
          -- `<?xml …?>` declaration or a processing instruction; both are
          -- skipped by the driver-facing reader.
          match splitSeq ['?', '>'] r2 with
          | some (_, rest) => tokenizeAux fuel stack rest
          | none => ([], some (.unexpectedEof "XmlDecl"))
        else if c2 = '/' then
          -- `</name>`: End event, subject to the nesting check.
          match splitUntilChar '>' r2 with
          | some (body, rest) =>
            let name := String.mk (body.takeWhile (fun c => !(isWs c)))
            match closeTag stack name with
            | .ok stack' =>
              let p := tokenizeAux fuel stack' rest
              (.end_ name :: p.1, p.2)
            | .error e => ([], some e)
          | none => ([], some (.unexpectedEof "End tag"))
        else
          -- `<name …>` is Start, `<name …/>` is Empty (expanded here into a
          -- Start/End pair with no push/pop, spec §4.1).
          match splitTag none r with
          | some (content, rest) =>
            let selfClosing := content.getLast? = some '/'
            let body := if selfClosing then content.dropLast else content
            let nameChars := body.takeWhile (fun c => !(isWs c) && c ≠ '/')
            let name := String.mk nameChars
            match parseAttrs (body.drop nameChars.length) with
            | .ok attrs =>
              if selfClosing then
                let p := tokenizeAux fuel stack rest
                (.start name attrs :: .end_ name :: p.1, p.2)
              else
                let p := tokenizeAux fuel (name :: stack) rest
                (.start name attrs :: p.1, p.2)
            | .error e => ([], some e)
          | none => ([], some (.unexpectedEof "Tag"))
    else
    -- Non-`<` bytes form a Text event, terminated by the next `<` or end of
    -- stream; whitespace-only text is skipped and text is trimmed
    -- (`trim_text`, as configured by the deserializer).
    let body := (c :: r).takeWhile (fun ch => ch ≠ '<')
    let rest := (c :: r).drop body.length
    let trimmed := trimChars body
    if trimmed.isEmpty then tokenizeAux fuel stack rest
    else
      let p := tokenizeAux fuel stack rest
      (.text (String.mk trimmed) :: p.1, p.2)

/-- Tokenize a whole document, starting from an empty stack. -/
def tokenize (s : String) : List DeEvent × Option Error :=
  tokenizeAux (s.toList.length + 1) [] s.toList

/-! ## Deserialization driver

Modelled from the spec (§4.4, §4.5).  Each driver function consumes a
prefix of the event list and returns the rest; the reader's trailing error
(`te`) surfaces only when the driver pulls past the produced events, which
mirrors the lazy pull reader. -/

/-- The error produced when the driver pulls an event and the stream is
exhausted: end of input is `DeError::UnexpectedEof`, a pending reader error
surfaces as `DeError::InvalidXml`. -/
def eofError (te : Option Error) : DeError :=
  match te with
  | none => .unexpectedEof
  | some e => .invalidXml e

/-- Skip events until the `End` that closes the element whose `Start` has
already been consumed (`depth` counts the extra elements opened meanwhile);
returns the events after that `End`. -/
def skipToEnd (te : Option Error) : Nat → List DeEvent → Except DeError (List DeEvent)
  | _, [] => .error (eofError te)
  | depth, .start _ _ :: r => skipToEnd te (depth + 1) r
  | depth, .end_ _ :: r => if depth = 0 then .ok r else skipToEnd te (depth - 1) r
  | depth, .text _ :: r => skipToEnd te depth r
  | depth, .cdata _ :: r => skipToEnd te depth r

/-- Modelled from the spec: the *unit* / *ignored* visitor entry (§4.4).
One item is consumed and ignored: a `Start` together with everything up to
its matching `End` (attributes, children, text and CDATA alike), or a lone
`Text`/`CData` chunk.  An `End` the driver does not expect is
`DeError::UnexpectedEnd`; end of stream is `DeError::UnexpectedEof`. -/
def deUnit (te : Option Error) : List DeEvent → Except DeError (List DeEvent)
  | [] => .error (eofError te)
  | .start _ _ :: r => skipToEnd te 0 r
  | .text _ :: r => .ok r
  | .cdata _ :: r => .ok r
  | .end_ n :: _ => .error (.unexpectedEnd n)

/-- Variant of `skipToEnd` used inside the reordering window, where the
events are only rearranged, never reported: drop an element's remaining
events (its `Start` already removed) and return what follows its `End`. -/
def dropElement : Nat → List DeEvent → Option (List DeEvent)
  | _, [] => none
  | d, .start _ _ :: r => dropElement (d + 1) r
  | d, .end_ _ :: r => if d = 0 then some r else dropElement (d - 1) r
  | d, .text _ :: r => dropElement d r
  | d, .cdata _ :: r => dropElement d r

/-! ### Scalar content -/

/-- One chunk of an element's content channel: a `Text` portion (still
escaped) or a `CData` portion (never escaped). -/
inductive Piece
  | txt (s : String)
  | cd (s : String)
deriving DecidableEq

/-- Unescape a `Text` portion, lifting escape errors into the
deserialization error hierarchy. -/
def decodeText (s : String) : Except DeError String :=
  match unescape s with
  | .ok t => .ok t
  | .error e => .error (.invalidXml (.escapeError e))

/-- Concatenate the content chunks, unescaping `Text` portions and leaving
`CData` verbatim (spec §4.4, scalar decoding). -/
def decodePiecesAux : List Piece → Except DeError String
  | [] => .ok ""
  | .txt s :: r =>
    match decodeText s with
    | .ok a => (decodePiecesAux r).map (fun b => a ++ b)
    | .error e => .error e
  | .cd s :: r => (decodePiecesAux r).map (fun b => s ++ b)

/-- Modelled from the spec (§4.4, scalar decoding): collect the text
content, unescape `Text` portions, leave `CData` verbatim, and trim
surrounding whitespace.  The scalar is then parsed from this string; two
scalar fields decode to equal values exactly when these strings are
equal. -/
def decodePieces (ps : List Piece) : Except DeError String :=
  (decodePiecesAux ps).map trimStr

/-- An attribute value is decoded exactly like a single `Text` content
chunk (it is still escaped in the event). -/
def decodeAttrValue (v : String) : Except DeError String :=
  decodePieces [.txt v]

/-- Concatenate the content chunks raw: bytes-typed targets receive the
still-escaped bytes without unescape (spec §4.4). -/
def rawPieces : List Piece → String
  | [] => ""
  | .txt s :: r => s ++ rawPieces r
  | .cd s :: r => s ++ rawPieces r

/-! ### Record decoding with scalar-valued fields

Modelled from the spec (§4.4, record decoding): on entering a record the
current event must be `Start`; attributes are surfaced as the first fields
of the map, then the element's children until the matching `End`, in
document order.  Unknown attributes and unknown child elements are silently
skipped; text and CDATA children of a record without a `$value` field are
ignored as well. -/

/-- Keep the attributes whose names are declared fields, decoding their
values; unknown attributes are silently skipped. -/
def decodeAttrs (fs : List String) : List (String × String) → Except DeError (List (String × String))
  | [] => .ok []
  | (k, v) :: r =>
    if k ∈ fs then
      match decodeAttrValue v with
      | .ok d => (decodeAttrs fs r).map (fun rest => (k, d) :: rest)
      | .error e => .error e
    else decodeAttrs fs r

/-- The state of the single-pass child scanner of a record. -/
inductive CState
  | top
  | inField (name : String) (pieces : List Piece)
  | skipping (depth : Nat)

/-- Scan the children of a record element: a child whose name is a declared
field has its content collected and decoded as a scalar; other children are
skipped whole; stray text/CDATA is ignored; the record ends at the parent's
`End`.  Produces the fields in document order. -/
def childLoop (fs : List String) (te : Option Error) :
    CState → List (String × String) → List DeEvent →
    Except DeError (List (String × String) × List DeEvent)
  | _, _, [] => .error (eofError te)
  | .top, acc, ev :: r =>
    match ev with
    | .start n _ =>
      if n ∈ fs then childLoop fs te (.inField n []) acc r
      else childLoop fs te (.skipping 0) acc r
    | .end_ _ => .ok (acc, r)
    | .text _ => childLoop fs te .top acc r
    | .cdata _ => childLoop fs te .top acc r
  | .inField n ps, acc, ev :: r =>
    match ev with
    | .text s => childLoop fs te (.inField n (ps ++ [.txt s])) acc r
    | .cdata s => childLoop fs te (.inField n (ps ++ [.cd s])) acc r
    | .end_ _ =>
      match decodePieces ps with
      | .ok v => childLoop fs te .top (acc ++ [(n, v)]) r
      | .error e => .error e
    | .start m _ => .error (.unexpectedStart m)
  | .skipping d, acc, ev :: r =>
    match ev with
    | .start _ _ => childLoop fs te (.skipping (d + 1)) acc r
    | .end_ _ =>
      if d = 0 then childLoop fs te .top acc r
      else childLoop fs te (.skipping (d - 1)) acc r
    | .text _ => childLoop fs te (.skipping d) acc r
    | .cdata _ => childLoop fs te (.skipping d) acc r

/-- Decode a record with scalar-valued fields `fs` into its field/value
pairs in document order: attributes first, then children (spec §4.4, name
mapping). -/
def deStructFields (fs : List String) (te : Option Error) (evs : List DeEvent) :
    Except DeError (List (String × String) × List DeEvent) :=
  match evs with
  | [] => .error (eofError te)
  | .start _ attrs :: r =>
    match decodeAttrs fs attrs with
    | .ok akvs => childLoop fs te .top akvs r
    | .error e => .error e
  | _ :: _ => .error .expectedStart

/-- The canonical decode of a field/value list all of whose names are
declared fields: every value decoded as a scalar, names kept, first error
propagated.  `decodeAttrs` agrees with it on such lists, and the child scan
of a record whose children are exactly simple field elements produces it as
well: this is the common core of the attribute/element equivalence. -/
def decodePairs : List (String × String) → Except DeError (List (String × String))
  | [] => .ok []
  | (k, v) :: r =>
    match decodeAttrValue v with
    | .ok d => (decodePairs r).map (fun rest => (k, d) :: rest)
    | .error e => .error e

/-- Look a required field up among the decoded pairs: absent fields are
`Custom("missing field `X`")`, fields that occur twice are
`Custom("duplicate field `X`")` (spec §4.4, record decoding). -/
def getField (kvs : List (String × String)) (f : String) : Except DeError String :=
  match kvs.filter (fun kv => kv.1 = f) with
  | [] => .error (.custom ("missing field `" ++ f ++ "`"))
  | [kv] => .ok kv.2
  | _ => .error (.custom ("duplicate field `" ++ f ++ "`"))

/-- Look every declared field up, in declaration order. -/
def getFields (kvs : List (String × String)) : List String → Except DeError (List String)
  | [] => .ok []
  | f :: r =>
    match getField kvs f with
    | .ok v => (getFields kvs r).map (fun rest => v :: rest)
    | .error e => .error e

/-- The decoded value of a record with scalar fields `fs`: the list of its
field values in declaration order, plus the unconsumed events. -/
def deRecordValues (fs : List String) (te : Option Error) (evs : List DeEvent) :
    Except DeError (List String × List DeEvent) :=
  match deStructFields fs te evs with
  | .ok (kvs, rest) => (getFields kvs fs).map (fun vs => (vs, rest))
  | .error e => .error e

/-! ### Fixed-name sequences and the list reordering window

Modelled from the spec (§4.4 sequence decoding, §4.5): a field of sequence
type bound to a child name iterates child elements with that name.  With the
overlapped-lists ring *disabled* the driver degrades to in-order
consumption: the sequence ends as soon as a differently-named element or the
parent `End` appears.  With the ring *enabled* the driver scans forward for
the earliest element matching the field's name; intermediate events remain
buffered, in order, for later fields.  A fixed-size array of length `M`
demands exactly `M` elements, failing with
`Custom("invalid length N, expected an array of length M")` when the
sequence ends after `N < M`, and a further element with the same name after
the array is complete is a second occurrence of the field:
`Custom("duplicate field")`. -/

/-- Remove the earliest sibling element named `name` from the buffered
events (`d` counts elements opened meanwhile, so nested occurrences do not
match); events before it stay buffered in order.  `none` when the parent's
`End` (or the end of the buffer) is reached first. -/
def extractFirst (name : String) : Nat → List DeEvent → Option (List DeEvent)
  | _, [] => none
  | d, .start m a :: r =>
    if d = 0 ∧ m = name then dropElement 0 r
    else (extractFirst name (d + 1) r).map (fun l => .start m a :: l)
  | d, .end_ m :: r =>
    if d = 0 then none
    else (extractFirst name (d - 1) r).map (fun l => .end_ m :: l)
  | d, .text s :: r => (extractFirst name d r).map (fun l => .text s :: l)
  | d, .cdata s :: r => (extractFirst name d r).map (fun l => .cdata s :: l)

/-- Fetch the next element of a fixed-name sequence and consume it as a
unit: in-order when the ring is disabled (the very next event must be the
matching `Start`), reordering when it is enabled. -/
def nextItem (ring : Bool) (name : String) (evs : List DeEvent) : Option (List DeEvent) :=
  if ring then extractFirst name 0 evs
  else
    match evs with
    | .start m _ :: r => if m = name then dropElement 0 r else none
    | _ => none

/-- Consume the remaining `rem` elements of a fixed-size array of units,
`taken` having already been consumed; underflow emits the serde array
error `invalid length N, expected an array of length M`. -/
def consumeItems (ring : Bool) (name : String) : Nat → Nat → List DeEvent → Except DeError (List DeEvent)
  | 0, _, evs => .ok evs
  | rem + 1, taken, evs =>
    match nextItem ring name evs with
    | some r => consumeItems ring name rem (taken + 1) r
    | none =>
      .error (.custom ("invalid length " ++ toString taken ++
        ", expected an array of length " ++ toString (taken + rem + 1)))

/-- The child scan of a record `{ name: [(); n] }` whose single field is a
fixed-size array of units bound to the child name `name` (`n ≥ 1`).  `seen`
records whether the array field has already been deserialized.  Unknown
children are skipped; text and CDATA are ignored; a missing field is
reported at the parent's `End`.  Fuel-structural: every step consumes at
least one event, so `evs.length + 1` fuel always suffices. -/
def unitListLoop (ring : Bool) (name : String) (n : Nat) (te : Option Error) :
    Nat → Bool → List DeEvent → Except DeError (List DeEvent)
  | 0, _, _ => .error (.custom "event buffer exhausted")
  | _ + 1, _, [] => .error (eofError te)
  | fuel + 1, seen, ev :: r =>
    match ev with
    | .end_ _ =>
      if seen then .ok r
      else .error (.custom ("missing field `" ++ name ++ "`"))
    | .text _ => unitListLoop ring name n te fuel seen r
    | .cdata _ => unitListLoop ring name n te fuel seen r
    | .start m _ =>
      if m = name then
        if seen then .error (.custom ("duplicate field `" ++ name ++ "`"))
        else
          match dropElement 0 r with
          | none => .error (eofError te)
          | some r1 =>
            match consumeItems ring name (n - 1) 1 r1 with
            | .ok r2 => unitListLoop ring name n te fuel true r2
            | .error e => .error e
      else
        match dropElement 0 r with
        | none => .error (eofError te)
        | some r1 => unitListLoop ring name n te fuel seen r1

/-- Decode a record `{ name: [(); n] }` from its element (`n ≥ 1`). -/
def deUnitListEvents (ring : Bool) (name : String) (n : Nat) (te : Option Error)
    (evs : List DeEvent) : Except DeError (List DeEvent) :=
  match evs with
  | [] => .error (eofError te)
  | .start _ _ :: r => unitListLoop ring name n te (r.length + 1) false r
  | _ :: _ => .error .expectedStart

/-- `from_str` for the record `{ name: [(); n] }`, with the
overlapped-lists feature on or off. -/
def fromStrUnitList (ring : Bool) (name : String) (n : Nat) (s : String) :
    Except DeError (List DeEvent) :=
  let (evs, te) := tokenize s
  deUnitListEvents ring name n te evs

/-! ### `$value` sequences of a variant type

Modelled from the spec (§4.4): a field named `$value` of sequence type
receives the stream of child elements regardless of their names; for a
variant-typed element the child's name selects the variant (externally
tagged). -/

/-- The test suite's variant type: `<one>` and `<two>` select the unit
variants, any other tag name is stored inside `Other` (kebab-case renaming
maps `One` to `one` and `Two` to `two`). -/
inductive Choice
  | one
  | two
  | other (tag : String)
deriving DecidableEq

/-- Externally tagged variant selection: the element name picks the
variant. -/
def variantOf (m : String) : Choice :=
  if m = "one" then .one
  else if m = "two" then .two
  else .other m

/-- Consume the remaining `rem` elements of a fixed-size `$value` array of
variants: any child element is accepted, its name selecting the variant;
the sequence ends early (underflow) at the parent's `End`.
Fuel-structural. -/
def takeChoices (te : Option Error) :
    Nat → Nat → List Choice → List DeEvent → Except DeError (List Choice × List DeEvent)
  | 0, _, _, _ => .error (.custom "event buffer exhausted")
  | _ + 1, 0, acc, evs => .ok (acc, evs)
  | fuel + 1, rem + 1, acc, evs =>
    match evs with
    | [] => .error (eofError te)
    | .start m _ :: r =>
      match dropElement 0 r with
      | none => .error (eofError te)
      | some r1 => takeChoices te fuel rem (acc ++ [variantOf m]) r1
    | .end_ _ :: _ =>
      .error (.custom ("invalid length " ++ toString acc.length ++
        ", expected an array of length " ++ toString (acc.length + rem + 1)))
    | .text _ :: r => takeChoices te fuel (rem + 1) acc r
    | .cdata _ :: r => takeChoices te fuel (rem + 1) acc r

/-- After the `$value` array is complete, the record still has to reach its
`End`; a further child element is a second occurrence of the `$value`
field. -/
def choiceFinish (te : Option Error) : Nat → List DeEvent → Except DeError (List DeEvent)
  | 0, _ => .error (.custom "event buffer exhausted")
  | _ + 1, [] => .error (eofError te)
  | fuel + 1, ev :: r =>
    match ev with
    | .end_ _ => .ok r
    | .start _ _ => .error (.custom "duplicate field `$value`")
    | .text _ => choiceFinish te fuel r
    | .cdata _ => choiceFinish te fuel r

/-- Decode the record `{ $value: [Choice; n] }` from its element. -/
def deChoiceList (n : Nat) (te : Option Error) (evs : List DeEvent) :
    Except DeError (List Choice × List DeEvent) :=
  match evs with
  | [] => .error (eofError te)
  | .start _ _ :: r =>
    match takeChoices te (r.length + 1) n [] r with
    | .ok (cs, r2) => (choiceFinish te (r2.length + 1) r2).map (fun rest => (cs, rest))
    | .error e => .error e
  | _ :: _ => .error .expectedStart

/-- `from_str` for the record `{ $value: [Choice; n] }`. -/
def fromStrChoiceList (n : Nat) (s : String) : Except DeError (List Choice × List DeEvent) :=
  let (evs, te) := tokenize s
  deChoiceList n te evs

/-! ### `$value` scalar content of a single element -/

/-- Collect the content channel of the current element: adjacent `Text` and
`CData` events in document order, until the element's `End`; a child
element where a scalar is expected is `DeError::UnexpectedStart` (this is
how a wrapped `<outer><root>…</root></outer>` fails for a scalar target). -/
def pieceLoop (te : Option Error) :
    List Piece → List DeEvent → Except DeError (List Piece × List DeEvent)
  | _, [] => .error (eofError te)
  | acc, .text s :: r => pieceLoop te (acc ++ [.txt s]) r
  | acc, .cdata s :: r => pieceLoop te (acc ++ [.cd s]) r
  | acc, .end_ _ :: r => .ok (acc, r)
  | _, .start m _ :: _ => .error (.unexpectedStart m)

/-- Enter the single root element and collect its content channel. -/
def deTrivialPieces (te : Option Error) (evs : List DeEvent) :
    Except DeError (List Piece × List DeEvent) :=
  match evs with
  | [] => .error (eofError te)
  | .start _ _ :: r => pieceLoop te [] r
  | _ :: _ => .error .expectedStart

/-- `from_str` for `Trivial<String>` (a struct whose single `$value` field
is a string): `Text` portions are unescaped, `CData` is verbatim. -/
def fromStrTrivialString (s : String) : Except DeError (String × List DeEvent) :=
  let (evs, te) := tokenize s
  match deTrivialPieces te evs with
  | .ok (ps, rest) => (decodePieces ps).map (fun v => (v, rest))
  | .error e => .error e

/-- `from_str` for `Trivial<ByteBuf>`: bytes-typed targets receive the raw
still-escaped bytes, for `Text` and `CData` content alike. -/
def fromStrTrivialBytes (s : String) : Except DeError (String × List DeEvent) :=
  let (evs, te) := tokenize s
  match deTrivialPieces te evs with
  | .ok (ps, rest) => .ok (rawPieces ps, rest)
  | .error e => .error e

/-! ### Top-level sequences -/

/-- Modelled from the spec (§4.4, top-level sequences): at document scope a
sequence consumes consecutive roots until `Eof`; each root-level item (an
element, or a text/CDATA chunk) deserializes to `()` here, so the result is
the number of items.  An `End` event ends the sequence without being
consumed (it cannot occur at document scope).  Fuel-structural. -/
def deVecUnits (te : Option Error) : Nat → Nat → List DeEvent → Except DeError (Nat × List DeEvent)
  | 0, _, _ => .error (.custom "event buffer exhausted")
  | _ + 1, acc, [] =>
    match te with
    | none => .ok (acc, [])
    | some e => .error (.invalidXml e)
  | _ + 1, acc, .end_ n :: r => .ok (acc, .end_ n :: r)
  | fuel + 1, acc, ev :: r =>
    match deUnit te (ev :: r) with
    | .ok rest => deVecUnits te fuel (acc + 1) rest
    | .error e => .error e

/-- `from_str` for `Vec<()>` at document scope. -/
def fromStrVec (s : String) : Except DeError (Nat × List DeEvent) :=
  let (evs, te) := tokenize s
  deVecUnits te (evs.length + 1) 0 evs

/-! ### Entry points used by several claims -/

/-- `from_str` for `()`: one ignored item. -/
def fromStrUnit (s : String) : Except DeError (List DeEvent) :=
  let (evs, te) := tokenize s
  deUnit te evs

/-- `from_str` for the test suite's `Struct { float, string }` record with
two scalar fields. -/
def fromStrStruct2 (s : String) : Except DeError (List String × List DeEvent) :=
  let (evs, te) := tokenize s
  deRecordValues ["float", "string"] te evs

/-- The check performed by the test suite's `from_str` helper: deserialize
`()` and, when that succeeds, immediately deserialize another `()` from the
same deserializer; the helper expects the second result to be
`DeError::UnexpectedEof`. -/
def fromStrThenUnit (s : String) : Except DeError (Except DeError (List DeEvent)) :=
  let (evs, te) := tokenize s
  (deUnit te evs).map (fun rest => deUnit te rest)

/-! ### Documents as events, and stream well-formedness -/

/-- The record's fields rendered as attributes of an empty element
(`<root f1="v1" …/>`, expanded into `Start`/`End`). -/
def attrDoc (fs vs : List String) : List DeEvent :=
  [.start "root" (fs.zip vs), .end_ "root"]

/-- The record's fields rendered as simple child elements
(`<root><f1>v1</f1>…</root>`). -/
def elemDoc (fs vs : List String) : List DeEvent :=
  .start "root" [] ::
    ((fs.zip vs).flatMap (fun p => [.start p.1 [], .text p.2, .end_ p.1]) ++ [.end_ "root"])

/-- `k` repetitions of an empty `<name/>` child, as events. -/
def itemsEvents (name : String) : Nat → List DeEvent
  | 0 => []
  | k + 1 => .start name [] :: .end_ name :: itemsEvents name k

/-- `<root>` with `k` empty `<item/>` children. -/
def itemsDoc (k : Nat) : List DeEvent :=
  .start "root" [] :: (itemsEvents "item" k ++ [.end_ "root"])

/-- `closes d body` holds when `body` is exactly the remainder of a
well-formed element whose `Start` (plus `d` more nested `Start`s) has been
consumed: reading it pops every opened element and ends right after the
closing `End`. -/
def closes : Nat → List DeEvent → Bool
  | _, [] => false
  | d, .start _ _ :: r => closes (d + 1) r
  | d, .end_ _ :: r => if d = 0 then r.isEmpty else closes (d - 1) r
  | d, .text _ :: r => closes d r
  | d, .cdata _ :: r => closes d r

/-- An event list is well-nested relative to the stack of open element
names: every `End` matches the innermost open `Start`.  The reader's
nesting check guarantees this for every stream it produces. -/
def stackOk : List String → List DeEvent → Bool
  | _, [] => true
  | st, .start n _ :: r => stackOk (n :: st) r
  | st, .end_ n :: r =>
    match st with
    | [] => false
    | t :: st' => if t = n then stackOk st' r else false
  | st, .text _ :: r => stackOk st r
  | st, .cdata _ :: r => stackOk st r

/-- Is this error `DeError::UnexpectedEnd`? -/
def isUEndErr : DeError → Bool
  | .unexpectedEnd _ => true
  | _ => false

/-- Does a driver result read an `End` event the deserializer did not
expect?  (`DeError::UnexpectedEnd`, which the reader should make
impossible.) -/
def isUEnd {α : Type} : Except DeError α → Bool
  | .error (.unexpectedEnd _) => true
  | _ => false

end FastXml

deriving instance DecidableEq for Except

open FastXml

/-! ## Verified properties -/

/-- **C1**: for the record type `{item: [(); 3]}` deserialized from
`<root><item/><unknown/><item/><item/></root>`: with the overlapped-lists
reordering ring enabled deserialization succeeds; with the ring disabled it
fails with `Custom("invalid length 1, expected an array of length 3")`. -/
theorem c1_overlapped_list_ring :
    fromStrUnitList true "item" 3 "<root><item/><unknown/><item/><item/></root>" = .ok [] ∧
    fromStrUnitList false "item" 3 "<root><item/><unknown/><item/><item/></root>" =
      .error (.custom "invalid length 1, expected an array of length 3") :=
  ⟨rfl, rfl⟩

/-- **C5**: at document scope a sequence consumes consecutive roots until
`Eof`: `<root/><root>42</root><root>answer</root>` deserializes into a
3-element sequence, and a document with zero roots into an empty
sequence. -/
theorem c5_top_level_sequence :
    fromStrVec "<root/><root>42</root><root>answer</root>" = .ok (3, []) ∧
    fromStrVec "" = .ok (0, []) :=
  ⟨rfl, rfl⟩

/-- **C7**: a `$value` field of sequence-of-variant type receives the
stream of child elements, each element's name selecting the variant:
`<root><one/><two/><three/></root>` into `{items: [Choice; 3]}` with
variants `One, Two, Other(String)` yields `[One, Two, Other("three")]`. -/
theorem c7_value_variant_sequence :
    fromStrChoiceList 3 "<root><one/><two/><three/></root>" =
      .ok ([Choice.one, Choice.two, Choice.other "three"], []) :=
  rfl

/-- **C4**: when deserializing a string from an element's content, escape
sequences in `Text` portions are decoded (`&#x20;` becomes a space) while
`CData` content is passed through verbatim, never unescaped — for *any*
CDATA content the scalar decode applies no unescaping (first conjunct);
bytes-typed targets receive the raw still-escaped bytes in both cases. -/
theorem c4_cdata_passthrough :
    (∀ s : String, decodePieces [Piece.cd s] = .ok (trimStr s)) ∧
    fromStrTrivialString "<root>escaped&#x20;string</root>" = .ok ("escaped string", []) ∧
    fromStrTrivialString "<root><![CDATA[escaped&#x20;string]]></root>" =
      .ok ("escaped&#x20;string", []) ∧
    fromStrTrivialBytes "<root>escaped&#x20;byte_buf</root>" =
      .ok ("escaped&#x20;byte_buf", []) ∧
    fromStrTrivialBytes "<root><![CDATA[escaped&#x20;byte_buf]]></root>" =
      .ok ("escaped&#x20;byte_buf", []) :=
  ⟨fun s => by simp [decodePieces, decodePiecesAux, Except.map], rfl, rfl, rfl, rfl⟩

/-- **C6**, reader half: with `check_end_names` on, an `End` whose name
differs from the most recent unmatched `Start`'s name fails with
`EndEventMismatch { expected, found }`; driver half: on the test suite's
mismatched documents this surfaces as `DeError::InvalidXml(EndEventMismatch
{ .. })` during record deserialization. -/
theorem c6_end_event_mismatch :
    (∀ (expected found : String) (stack : List String), expected ≠ found →
      closeTag (expected :: stack) found = .error (.endEventMismatch expected found)) ∧
    fromStrStruct2 "<root float=\"42\" string=\"answer\"></mismatched>" =
      .error (.invalidXml (.endEventMismatch "root" "mismatched")) ∧
    fromStrStruct2 "<root float=\"42\"><string>answer</string></mismatched>" =
      .error (.invalidXml (.endEventMismatch "root" "mismatched")) ∧
    fromStrStruct2 "<root float=\"42\"><string>answer</mismatched></root>" =
      .error (.invalidXml (.endEventMismatch "string" "mismatched")) :=
  ⟨fun _ _ _ h => by simp [closeTag, h], rfl, rfl, rfl⟩

/-- Witness for `c6_end_event_mismatch` at `expected = "root"`,
`found = "mismatched"`. -/
theorem c6_end_event_mismatch_witness :
    closeTag ["root"] "mismatched" = .error (.endEventMismatch "root" "mismatched") :=
  c6_end_event_mismatch.1 "root" "mismatched" [] (by decide)

/-- Skipping to the closing `End` of an element consumes exactly the
well-formed remainder of that element and nothing more. -/
theorem skipToEnd_append_of_closes (te : Option Error) :
    ∀ (body : List DeEvent) (d : Nat) (rest : List DeEvent),
      closes d body = true → skipToEnd te d (body ++ rest) = .ok rest := by
  intro body
  induction body with
  | nil => intro d rest h; simp [closes] at h
  | cons ev r ih =>
    intro d rest h
    cases ev with
    | start n a => simpa [skipToEnd] using ih (d + 1) rest (by simpa [closes] using h)
    | end_ n =>
      by_cases hd : d = 0
      · subst hd
        have hr : r = [] := by simpa [closes, List.isEmpty_iff] using h
        subst hr
        simp [skipToEnd]
      · simp only [closes, if_neg hd] at h
        simpa [skipToEnd, hd] using ih (d - 1) rest h
    | text s => simpa [skipToEnd] using ih d rest (by simpa [closes] using h)
    | cdata s => simpa [skipToEnd] using ih d rest (by simpa [closes] using h)

/-- **C10**: deserializing a unit-struct target from any single well-formed
root element succeeds, regardless of the element carrying attributes, child
elements, text or CDATA content, all of which are consumed and ignored
(first conjunct: any `Start` with any attributes followed by any well-formed
body is consumed exactly); the test suite's concrete documents confirm the
same through the full pipeline. -/
theorem c10_unit_ignores_element :
    (∀ (name : String) (attrs : List (String × String)) (body rest : List DeEvent)
        (te : Option Error), closes 0 body = true →
      deUnit te (.start name attrs :: body ++ rest) = .ok rest) ∧
    fromStrUnit "<root/>" = .ok [] ∧
    fromStrUnit "<root excess=\"attribute\"/>" = .ok [] ∧
    fromStrUnit "<root><excess>element</excess></root>" = .ok [] ∧
    fromStrUnit "<root>excess text</root>" = .ok [] ∧
    fromStrUnit "<root><![CDATA[excess CDATA]]></root>" = .ok [] :=
  ⟨fun _ _ body rest te h => by
      simpa [deUnit] using skipToEnd_append_of_closes te body 0 rest h,
    rfl, rfl, rfl, rfl, rfl⟩

/-- On a field/value list all of whose names are declared fields, the
attribute decoder is the canonical decode (unknown-attribute skipping never
fires). -/
theorem decodeAttrs_eq_decodePairs (fs : List String) :
    ∀ ps : List (String × String), (∀ p ∈ ps, p.1 ∈ fs) →
      decodeAttrs fs ps = decodePairs ps := by
  intro ps
  induction ps with
  | nil => intro _; rfl
  | cons p r ih =>
    intro h
    obtain ⟨k, v⟩ := p
    have hk : k ∈ fs := h (k, v) (by simp)
    have hr : ∀ p ∈ r, p.1 ∈ fs := fun p hp => h p (by simp [hp])
    simp only [decodeAttrs, decodePairs, if_pos hk, ih hr]

/-- The child scan of a record whose children are exactly simple field
elements `<f>v</f>` produces the canonical decode of the same field/value
list and stops at the parent's `End`. -/
theorem childLoop_chunks (fs : List String) (te : Option Error) :
    ∀ (ps : List (String × String)) (acc : List (String × String)),
      (∀ p ∈ ps, p.1 ∈ fs) →
      childLoop fs te .top acc
          (ps.flatMap (fun p => [.start p.1 [], .text p.2, .end_ p.1]) ++ [.end_ "root"]) =
        match decodePairs ps with
        | .ok kvs => .ok (acc ++ kvs, [])
        | .error e => .error e := by
  intro ps
  induction ps with
  | nil => intro acc _; simp [childLoop, decodePairs]
  | cons p r ih =>
    intro acc h
    obtain ⟨k, v⟩ := p
    have hk : k ∈ fs := h (k, v) (by simp)
    have hr : ∀ p ∈ r, p.1 ∈ fs := fun p hp => h p (by simp [hp])
    simp only [List.flatMap_cons, List.cons_append, List.append_assoc, List.nil_append]
    simp only [childLoop, if_pos hk, List.nil_append]
    rw [show decodePieces [Piece.txt v] = decodeAttrValue v from rfl]
    cases hdv : decodeAttrValue v with
    | ok d =>
      simp only [decodePairs, hdv, ih (acc ++ [(k, d)]) hr]
      cases hdp : decodePairs r with
      | ok kvs => simp [Except.map, List.append_assoc]
      | error e => simp [Except.map]
    | error e => simp only [decodePairs, hdv]

/-- **C2**: for every record whose fields are scalar-valued, the same field
set decodes identically whether the fields appear as attributes of the
element or as simple child elements — for any field names `fs` and values
`vs`, the record decoded from `<root f1="v1" …/>` equals the record decoded
from `<root><f1>v1</f1>…</root>`, errors included; concretely, the spec's
example documents decode to the same `{float: 42, string: "answer"}`
record. -/
theorem c2_attribute_equivalence :
    (∀ fs vs : List String,
      deRecordValues fs none (attrDoc fs vs) = deRecordValues fs none (elemDoc fs vs)) ∧
    fromStrStruct2 "<root><float>42</float><string>answer</string></root>" =
      fromStrStruct2 "<root float=\"42\" string=\"answer\"/>" := by
  refine ⟨fun fs vs => ?_, rfl⟩
  have hmem : ∀ p ∈ fs.zip vs, p.1 ∈ fs := by
    intro p hp
    obtain ⟨a, b⟩ := p
    exact (List.of_mem_zip hp).1
  simp only [deRecordValues, deStructFields, attrDoc, elemDoc,
    decodeAttrs_eq_decodePairs fs _ hmem]
  cases hdp : decodePairs (fs.zip vs) with
  | ok kvs =>
    simp only [childLoop_chunks fs none _ [] hmem, hdp, childLoop, decodeAttrs,
      List.nil_append]
  | error e =>
    simp only [childLoop_chunks fs none _ [] hmem, hdp, decodeAttrs]

/-- Each `<item/>` of the sibling run is two events. -/
theorem itemsEvents_length (name : String) : ∀ k, (itemsEvents name k).length = 2 * k := by
  intro k
  induction k with
  | zero => rfl
  | succ k ih => simp [itemsEvents, ih]; omega

/-- In-order consumption of a run of `j` matching `<item/>` siblings when
`rem` more elements are demanded: consumes `rem` of them when the run is
long enough, otherwise fails with the serde array underflow error after the
whole run. -/
theorem consumeItems_spec (tail : List DeEvent)
    (ht : nextItem false "item" tail = none) (rem : Nat) :
    ∀ (j taken : Nat),
      consumeItems false "item" rem taken (itemsEvents "item" j ++ tail) =
        if rem ≤ j then .ok (itemsEvents "item" (j - rem) ++ tail)
        else .error (.custom ("invalid length " ++ toString (taken + j) ++
          ", expected an array of length " ++ toString (taken + rem))) := by
  induction rem with
  | zero => intro j taken; simp [consumeItems]
  | succ rm ih =>
    intro j taken
    cases j with
    | zero =>
      simp only [itemsEvents, List.nil_append, consumeItems, ht]
      have h1 : ¬ (rm + 1 ≤ 0) := by omega
      have h2 : taken + 0 = taken := by omega
      have h3 : taken + rm + 1 = taken + (rm + 1) := by omega
      simp [h1, h2, h3]
    | succ j' =>
      simp only [itemsEvents, List.cons_append, consumeItems, nextItem, Bool.false_eq_true,
        if_false]
      norm_num [dropElement]
      rw [ih j' (taken + 1)]
      have h1 : taken + 1 + j' = taken + (j' + 1) := by omega
      have h2 : taken + 1 + rm = taken + (rm + 1) := by omega
      have h3 : j' + 1 - (rm + 1) = j' - rm := by omega
      rw [h1, h2, h3]

/-- **C3** (amended): for a record field of fixed-size-array type of length
`M ≥ 1` bound to a child-element name, a document with at least one but
fewer than `M` consecutively matching children fails with
`Custom("invalid length N, expected an array of length M")` where `N ≥ 1`
is the number found, and a document with more than `M` matching children
fails with `Custom("duplicate field `item`")` (the excess element is a
second occurrence of the field). With zero matching children the error is
`Custom("missing field `item`")` instead, see the counterexample. -/
theorem c3_fixed_size_array (m k : Nat) (hk : 1 ≤ k) (hm : 1 ≤ m) :
    (k < m → deUnitListEvents false "item" m none (itemsDoc k) =
      .error (.custom ("invalid length " ++ toString k ++
        ", expected an array of length " ++ toString m))) ∧
    (m < k → deUnitListEvents false "item" m none (itemsDoc k) =
      .error (.custom "duplicate field `item`")) := by
  obtain ⟨k', rfl⟩ : ∃ k', k = k' + 1 := ⟨k - 1, by omega⟩
  obtain ⟨m', rfl⟩ : ∃ m', m = m' + 1 := ⟨m - 1, by omega⟩
  have ht : nextItem false "item" [DeEvent.end_ "root"] = none := rfl
  have hlen : (itemsEvents "item" (k' + 1) ++ [DeEvent.end_ "root"]).length + 1 =
      (2 * k' + 3) + 1 := by
    simp [itemsEvents_length]; omega
  simp only [deUnitListEvents, itemsDoc, hlen]
  simp only [itemsEvents, List.cons_append, unitListLoop]
  norm_num [dropElement]
  rw [consumeItems_spec _ ht m' k' 1]
  constructor
  · intro hlt
    have hnot : ¬ (m' ≤ k') := by omega
    have h1 : 1 + k' = k' + 1 := by omega
    have h2 : 1 + m' = m' + 1 := by omega
    simp [hnot, h1, h2]
  · intro hlt
    have hle : m' ≤ k' := by omega
    obtain ⟨d, hd⟩ : ∃ d, k' - m' = d + 1 := ⟨k' - m' - 1, by omega⟩
    simp only [hle, if_true, hd]
    simp [itemsEvents, unitListLoop]

/-- Counterexample to **C3** as stated: a document with zero matching
children has "fewer than M consecutively matching children", yet the error
is `Custom("missing field `item`")`, not
`Custom("invalid length 0, expected an array of length 3")`. -/
theorem c3_fixed_size_array_counterexample :
    deUnitListEvents false "item" 3 none (itemsDoc 0) =
      .error (.custom "missing field `item`") ∧
    (Except.error (DeError.custom "missing field `item`") :
        Except DeError (List DeEvent)) ≠
      .error (.custom "invalid length 0, expected an array of length 3") :=
  ⟨rfl, by decide⟩

/-- Witness for `c3_fixed_size_array`: two of three children give
`invalid length 2, expected an array of length 3`; four of three give
`duplicate field `item``. -/
theorem c3_fixed_size_array_witness :
    deUnitListEvents false "item" 3 none (itemsDoc 2) =
      .error (.custom "invalid length 2, expected an array of length 3") ∧
    deUnitListEvents false "item" 3 none (itemsDoc 4) =
      .error (.custom "duplicate field `item`") :=
  ⟨by
      have h := (c3_fixed_size_array 3 2 (by decide) (by decide)).1 (by decide)
      simpa using h,
    by
      have h := (c3_fixed_size_array 3 4 (by decide) (by decide)).2 (by decide)
      simpa using h⟩

/-- A successful nesting check means the found name was the top of the
stack. -/
theorem closeTag_ok {st : List String} {n : String} {st' : List String}
    (h : closeTag st n = .ok st') : st = n :: st' := by
  cases st with
  | nil => simp [closeTag] at h
  | cons top rest =>
    by_cases htop : top = n
    · simp [closeTag, htop] at h
      simp [htop, h]
    · simp [closeTag, htop] at h

/-- An `End` event that passed the nesting check pops the stack in the
well-nestedness predicate. -/
theorem stackOk_closeTag {st : List String} {n : String} {st' : List String}
    (h : closeTag st n = .ok st') (evs : List DeEvent) :
    stackOk st (.end_ n :: evs) = stackOk st' evs := by
  have hst := closeTag_ok h
  subst hst
  simp [stackOk]

set_option linter.unusedTactic false in
/-- The reader only produces well-nested event streams: every `End` event
it emits matches the innermost open `Start` (the nesting check cuts the
stream short otherwise). -/
theorem tokenizeAux_stackOk : ∀ (fuel : Nat) (st : List String) (l : List Char),
    stackOk st (tokenizeAux fuel st l).1 = true := by
  intro fuel
  induction fuel with
  | zero => intro st l; rfl
  | succ f ih =>
    intro st l
    cases l with
    | nil => rfl
    | cons c r =>
      simp only [tokenizeAux]
      repeat' (first | split | dsimp only)
      all_goals
        first
        | rfl
        | exact ih _ _
        | (simp only [stackOk]; exact ih _ _)
        | (simp only [stackOk, if_pos rfl]; first | exact ih _ _ | rfl)
        | (rw [stackOk_closeTag ‹closeTag _ _ = Except.ok _› _]; exact ih _ _)

/-- Tokenizing a document yields a well-nested event stream. -/
theorem tokenize_stackOk (s : String) : stackOk [] (tokenize s).1 = true :=
  tokenizeAux_stackOk _ [] _

/-- Witness for `c10_unit_ignores_element` at the element
`<root a="b"><child/>text</root>`. -/
theorem c10_unit_ignores_element_witness :
    closes 0 [DeEvent.start "child" [], DeEvent.end_ "child", DeEvent.text "text",
        DeEvent.end_ "root"] = true ∧
    deUnit none (DeEvent.start "root" [("a", "b")] ::
        [DeEvent.start "child" [], DeEvent.end_ "child", DeEvent.text "text",
         DeEvent.end_ "root"] ++ []) = .ok [] :=
  ⟨by decide,
    c10_unit_ignores_element.1 "root" [("a", "b")]
      [DeEvent.start "child" [], DeEvent.end_ "child", DeEvent.text "text",
       DeEvent.end_ "root"] [] none (by decide)⟩
/-- `isUEnd` of an error result only looks at the error itself. -/
theorem isUEnd_error {α : Type} (e : DeError) :
    isUEnd (Except.error e : Except DeError α) = isUEndErr e := by
  cases e <;> rfl

/-- End of stream never surfaces as `UnexpectedEnd`. -/
theorem isUEnd_eofError {α : Type} (te : Option Error) :
    isUEnd (Except.error (eofError te) : Except DeError α) = false := by
  cases te <;> rfl

/-- Mapping over a result does not change which error it carries. -/
theorem isUEnd_map {α β : Type} (f : α → β) (x : Except DeError α) :
    isUEnd (x.map f) = isUEnd x := by
  cases x with
  | ok a => rfl
  | error e =>
    rw [show (Except.error e : Except DeError α).map f = .error e from rfl]
    cases e <;> rfl

/-- Skipping to an element's `End` never reads an unexpected `End`: its
errors are end-of-stream errors only. -/
theorem skipToEnd_no_uend (te : Option Error) :
    ∀ (evs : List DeEvent) (d : Nat), isUEnd (skipToEnd te d evs) = false := by
  intro evs
  induction evs with
  | nil => intro d; exact isUEnd_eofError te
  | cons ev r ih =>
    intro d
    cases ev with
    | start n a => exact ih (d + 1)
    | end_ n =>
      by_cases hd : d = 0
      · simp [skipToEnd, hd, isUEnd]
      · simp [skipToEnd, hd, ih (d - 1)]
    | text s => exact ih d
    | cdata s => exact ih d

/-- Skipping to an element's `End` within a well-nested stream pops every
open frame and leaves a well-nested stream. -/
theorem skipToEnd_ok_stackOk (te : Option Error) :
    ∀ (evs : List DeEvent) (st : List String) (d : Nat) (rest : List DeEvent),
      stackOk st evs = true → st.length = d + 1 →
      skipToEnd te d evs = .ok rest → stackOk [] rest = true := by
  intro evs
  induction evs with
  | nil =>
    intro st d rest _ _ h
    simp [skipToEnd] at h
  | cons ev r ih =>
    intro st d rest hok hlen h
    cases ev with
    | start n a =>
      exact ih (n :: st) (d + 1) rest (by simpa [stackOk] using hok) (by simp [hlen]) h
    | end_ n =>
      cases st with
      | nil => simp [stackOk] at hok
      | cons t st' =>
        by_cases htn : t = n
        · subst htn
          simp only [stackOk, if_pos rfl] at hok
          by_cases hd : d = 0
          · subst hd
            simp only [skipToEnd, if_pos rfl] at h
            have : st' = [] := by
              simpa using hlen
            subst this
            cases h
            exact hok
          · simp only [skipToEnd, if_neg hd] at h
            have hlen' : st'.length = d - 1 + 1 := by
              simp only [List.length_cons] at hlen
              omega
            exact ih st' (d - 1) rest hok hlen' h
        · simp [stackOk, htn] at hok
    | text s => exact ih st d rest (by simpa [stackOk] using hok) hlen h
    | cdata s => exact ih st d rest (by simpa [stackOk] using hok) hlen h

/-- On a well-nested stream, the unit driver never reads an unexpected
`End`: its `UnexpectedEnd` branch fires only on an `End` with no open
element, which the reader cannot emit. -/
theorem deUnit_no_uend (te : Option Error) (evs : List DeEvent)
    (h : stackOk [] evs = true) : isUEnd (deUnit te evs) = false := by
  cases evs with
  | nil => exact isUEnd_eofError te
  | cons ev r =>
    cases ev with
    | start n a => exact skipToEnd_no_uend te r 0
    | end_ n => simp [stackOk] at h
    | text s => rfl
    | cdata s => rfl

/-- The unit driver consumes one whole item of a well-nested stream,
leaving a well-nested stream. -/
theorem deUnit_ok_stackOk (te : Option Error) (evs rest : List DeEvent)
    (hok : stackOk [] evs = true) (h : deUnit te evs = .ok rest) :
    stackOk [] rest = true := by
  cases evs with
  | nil => simp [deUnit] at h
  | cons ev r =>
    cases ev with
    | start n a =>
      exact skipToEnd_ok_stackOk te r [n] 0 rest (by simpa [stackOk] using hok) rfl h
    | end_ n => simp [stackOk] at hok
    | text s => cases h; simpa [stackOk] using hok
    | cdata s => cases h; simpa [stackOk] using hok

/-- On a well-nested stream, the top-level sequence driver never reads an
unexpected `End`. -/
theorem deVecUnits_no_uend (te : Option Error) :
    ∀ (fuel acc : Nat) (evs : List DeEvent), stackOk [] evs = true →
      isUEnd (deVecUnits te fuel acc evs) = false := by
  intro fuel
  induction fuel with
  | zero => intro acc evs _; rfl
  | succ f ih =>
    intro acc evs hok
    cases evs with
    | nil => cases te <;> rfl
    | cons ev r =>
      cases ev with
      | end_ n => rfl
      | start n a =>
        simp only [deVecUnits]
        cases h : deUnit te (DeEvent.start n a :: r) with
        | ok rest => exact ih (acc + 1) rest (deUnit_ok_stackOk te _ rest hok h)
        | error e =>
          have := deUnit_no_uend te (DeEvent.start n a :: r) hok
          rw [h, isUEnd_error] at this
          simpa [isUEnd_error] using this
      | text s =>
        simp only [deVecUnits]
        cases h : deUnit te (DeEvent.text s :: r) with
        | ok rest => exact ih (acc + 1) rest (deUnit_ok_stackOk te _ rest hok h)
        | error e =>
          have := deUnit_no_uend te (DeEvent.text s :: r) hok
          rw [h, isUEnd_error] at this
          simpa [isUEnd_error] using this
      | cdata s =>
        simp only [deVecUnits]
        cases h : deUnit te (DeEvent.cdata s :: r) with
        | ok rest => exact ih (acc + 1) rest (deUnit_ok_stackOk te _ rest hok h)
        | error e =>
          have := deUnit_no_uend te (DeEvent.cdata s :: r) hok
          rw [h, isUEnd_error] at this
          simpa [isUEnd_error] using this

/-- A successful top-level sequence has consumed every event and the
reader ended cleanly: the sequence only stops at `Eof`. -/
theorem deVecUnits_ok_consumed (te : Option Error) :
    ∀ (fuel acc n : Nat) (evs rest : List DeEvent), stackOk [] evs = true →
      deVecUnits te fuel acc evs = .ok (n, rest) → rest = [] ∧ te = none := by
  intro fuel
  induction fuel with
  | zero => intro acc n evs rest _ h; simp [deVecUnits] at h
  | succ f ih =>
    intro acc n evs rest hok h
    cases evs with
    | nil =>
      cases te with
      | none =>
        simp only [deVecUnits] at h
        cases h
        exact ⟨rfl, rfl⟩
      | some e => simp [deVecUnits] at h
    | cons ev r =>
      cases ev with
      | end_ m => simp [stackOk] at hok
      | start m a =>
        simp only [deVecUnits] at h
        cases hu : deUnit te (DeEvent.start m a :: r) with
        | ok rest' =>
          rw [hu] at h
          exact ih (acc + 1) n rest' rest (deUnit_ok_stackOk te _ rest' hok hu) h
        | error e => rw [hu] at h; cases h
      | text s =>
        simp only [deVecUnits] at h
        cases hu : deUnit te (DeEvent.text s :: r) with
        | ok rest' =>
          rw [hu] at h
          exact ih (acc + 1) n rest' rest (deUnit_ok_stackOk te _ rest' hok hu) h
        | error e => rw [hu] at h; cases h
      | cdata s =>
        simp only [deVecUnits] at h
        cases hu : deUnit te (DeEvent.cdata s :: r) with
        | ok rest' =>
          rw [hu] at h
          exact ih (acc + 1) n rest' rest (deUnit_ok_stackOk te _ rest' hok hu) h
        | error e => rw [hu] at h; cases h

/-- Unescape failures are reader-level escape errors, never
`UnexpectedEnd`. -/
theorem isUEnd_decodeText (s : String) : isUEnd (decodeText s) = false := by
  unfold decodeText
  cases unescape s <;> rfl

/-- Content concatenation never fails with `UnexpectedEnd`. -/
theorem isUEnd_decodePiecesAux : ∀ ps : List Piece, isUEnd (decodePiecesAux ps) = false := by
  intro ps
  induction ps with
  | nil => rfl
  | cons p r ih =>
    cases p with
    | txt s =>
      simp only [decodePiecesAux]
      cases h : decodeText s with
      | ok a => rw [isUEnd_map]; exact ih
      | error e =>
        have := isUEnd_decodeText s
        rw [h, isUEnd_error] at this
        simp [isUEnd_error, this]
    | cd s =>
      simp only [decodePiecesAux]
      rw [isUEnd_map]
      exact ih

/-- Scalar content decoding never fails with `UnexpectedEnd`. -/
theorem isUEnd_decodePieces (ps : List Piece) : isUEnd (decodePieces ps) = false := by
  unfold decodePieces
  rw [isUEnd_map]
  exact isUEnd_decodePiecesAux ps

/-- Attribute decoding never fails with `UnexpectedEnd`. -/
theorem isUEnd_decodeAttrs (fs : List String) :
    ∀ ps : List (String × String), isUEnd (decodeAttrs fs ps) = false := by
  intro ps
  induction ps with
  | nil => rfl
  | cons p r ih =>
    obtain ⟨k, v⟩ := p
    simp only [decodeAttrs]
    by_cases hk : k ∈ fs
    · simp only [if_pos hk]
      cases h : decodeAttrValue v with
      | ok d => rw [isUEnd_map]; exact ih
      | error e =>
        have := isUEnd_decodePieces [Piece.txt v]
        rw [show decodePieces [Piece.txt v] = decodeAttrValue v from rfl, h,
          isUEnd_error] at this
        simp [isUEnd_error, this]
    · simp only [if_neg hk]
      exact ih

/-- The record child scan never fails with `UnexpectedEnd`: an `End` event
is always structure (field end, skipped-element end or record end) for
it. -/
theorem isUEnd_childLoop (fs : List String) (te : Option Error) :
    ∀ (evs : List DeEvent) (st : CState) (acc : List (String × String)),
      isUEnd (childLoop fs te st acc evs) = false := by
  intro evs
  induction evs with
  | nil => intro st acc; cases st <;> exact isUEnd_eofError te
  | cons ev r ih =>
    intro st acc
    cases st with
    | top =>
      cases ev with
      | start n a =>
        by_cases hn : n ∈ fs
        · simp only [childLoop, if_pos hn]; exact ih _ _
        · simp only [childLoop, if_neg hn]; exact ih _ _
      | end_ n => rfl
      | text s => exact ih _ _
      | cdata s => exact ih _ _
    | inField n ps =>
      cases ev with
      | start m a => rfl
      | end_ m =>
        simp only [childLoop]
        cases h : decodePieces ps with
        | ok v => exact ih _ _
        | error e =>
          have := isUEnd_decodePieces ps
          rw [h, isUEnd_error] at this
          simp [isUEnd_error, this]
      | text s => exact ih _ _
      | cdata s => exact ih _ _
    | skipping d =>
      cases ev with
      | start m a => exact ih _ _
      | end_ m =>
        by_cases hd : d = 0
        · simp only [childLoop, if_pos hd]; exact ih _ _
        · simp only [childLoop, if_neg hd]; exact ih _ _
      | text s => exact ih _ _
      | cdata s => exact ih _ _

/-- Field lookup fails only with `Custom` errors. -/
theorem isUEnd_getField (kvs : List (String × String)) (f : String) :
    isUEnd (getField kvs f) = false := by
  unfold getField
  split <;> rfl

/-- Field lookups fail only with `Custom` errors. -/
theorem isUEnd_getFields (kvs : List (String × String)) :
    ∀ fs : List String, isUEnd (getFields kvs fs) = false := by
  intro fs
  induction fs with
  | nil => rfl
  | cons f r ih =>
    simp only [getFields]
    cases h : getField kvs f with
    | ok v => rw [isUEnd_map]; exact ih
    | error e =>
      have := isUEnd_getField kvs f
      rw [h, isUEnd_error] at this
      simp [isUEnd_error, this]

/-- Record decoding never fails with `UnexpectedEnd`. -/
theorem isUEnd_deRecordValues (fs : List String) (te : Option Error) (evs : List DeEvent) :
    isUEnd (deRecordValues fs te evs) = false := by
  unfold deRecordValues deStructFields
  cases evs with
  | nil => exact isUEnd_eofError te
  | cons ev r =>
    cases ev with
    | start n attrs =>
      cases ha : decodeAttrs fs attrs with
      | ok akvs =>
        cases hc : childLoop fs te .top akvs r with
        | ok p =>
          obtain ⟨kvs, rest⟩ := p
          simp only [ha, hc]
          rw [isUEnd_map]
          exact isUEnd_getFields kvs fs
        | error e =>
          have := isUEnd_childLoop fs te r .top akvs
          rw [hc, isUEnd_error] at this
          simp [ha, hc, isUEnd_error, this]
      | error e =>
        have := isUEnd_decodeAttrs fs attrs
        rw [ha, isUEnd_error] at this
        simp [ha, isUEnd_error, this]
    | end_ n => rfl
    | text s => rfl
    | cdata s => rfl

/-- The content-channel scan never fails with `UnexpectedEnd`. -/
theorem isUEnd_pieceLoop (te : Option Error) :
    ∀ (evs : List DeEvent) (acc : List Piece), isUEnd (pieceLoop te acc evs) = false := by
  intro evs
  induction evs with
  | nil => intro acc; exact isUEnd_eofError te
  | cons ev r ih =>
    intro acc
    cases ev with
    | start n a => rfl
    | end_ n => rfl
    | text s => exact ih _
    | cdata s => exact ih _

/-- `$value` string decoding never fails with `UnexpectedEnd`. -/
theorem isUEnd_fromStrTrivialString (s : String) :
    isUEnd (fromStrTrivialString s) = false := by
  unfold fromStrTrivialString deTrivialPieces
  rcases htok : tokenize s with ⟨evs, te⟩
  dsimp only
  cases evs with
  | nil => exact isUEnd_eofError te
  | cons ev r =>
    cases ev with
    | start n a =>
      cases hp : pieceLoop te [] r with
      | ok p =>
        obtain ⟨ps, rest⟩ := p
        simp only [hp]
        rw [isUEnd_map]
        exact isUEnd_decodePieces ps
      | error e =>
        have := isUEnd_pieceLoop te r []
        rw [hp, isUEnd_error] at this
        simp [hp, isUEnd_error, this]
    | end_ n => rfl
    | text t => rfl
    | cdata t => rfl

/-- **C9**: deserialization never returns `DeError::UnexpectedEnd`: for
every input string, none of the modelled `from_str` entry points (unit,
top-level sequence, two-field record, `$value` string) can return it,
because the reader's nesting check only emits well-nested event streams
and the drivers read `End` events at expected positions only. -/
theorem c9_no_unexpected_end (s : String) :
    isUEnd (fromStrUnit s) = false ∧
    isUEnd (fromStrVec s) = false ∧
    isUEnd (fromStrStruct2 s) = false ∧
    isUEnd (fromStrTrivialString s) = false := by
  refine ⟨?_, ?_, ?_, isUEnd_fromStrTrivialString s⟩
  · unfold fromStrUnit
    rcases htok : tokenize s with ⟨evs, te⟩
    dsimp only
    have hok : stackOk [] evs = true := by
      have := tokenize_stackOk s
      rw [htok] at this
      exact this
    exact deUnit_no_uend te evs hok
  · unfold fromStrVec
    rcases htok : tokenize s with ⟨evs, te⟩
    dsimp only
    have hok : stackOk [] evs = true := by
      have := tokenize_stackOk s
      rw [htok] at this
      exact this
    exact deVecUnits_no_uend te (evs.length + 1) 0 evs hok
  · unfold fromStrStruct2
    rcases htok : tokenize s with ⟨evs, te⟩
    dsimp only
    exact isUEnd_deRecordValues ["float", "string"] te evs

/-- Counterexample to **C8** as stated: deserializing `()` from the
two-root document `<a/><b/>` succeeds while consuming only the first root,
and the immediately following unit deserialization consumes `<b/>` and
succeeds — it does not return `DeError::UnexpectedEof`. -/
theorem c8_counterexample :
    fromStrThenUnit "<a/><b/>" = .ok (.ok []) ∧
    (Except.ok (Except.ok []) :
        Except DeError (Except DeError (List DeEvent))) ≠
      .ok (.error .unexpectedEof) :=
  ⟨rfl, by decide⟩

/-- **C8** (amended): a successful deserialization is not guaranteed to
consume the whole document (see the counterexample); but whenever the
target reads up to `Eof` — as the test suite's targets do, top-level
sequences being the canonical case — success implies the document is fully
consumed, and the immediately following unit deserialization returns
`DeError::UnexpectedEof`, which is what the test helper checks. -/
theorem c8_vec_consumes_all (s : String) (n : Nat) (rest : List DeEvent)
    (h : fromStrVec s = .ok (n, rest)) :
    deUnit (tokenize s).2 rest = .error .unexpectedEof := by
  unfold fromStrVec at h
  rcases htok : tokenize s with ⟨evs, te⟩
  rw [htok] at h
  dsimp only at h
  have hok : stackOk [] evs = true := by
    have := tokenize_stackOk s
    rw [htok] at this
    exact this
  obtain ⟨hrest, hte⟩ := deVecUnits_ok_consumed te (evs.length + 1) 0 n evs rest hok h
  subst hrest
  subst hte
  rfl

/-- Witness for `c8_vec_consumes_all` at the single-root document
`<root/>`. -/
theorem c8_vec_consumes_all_witness :
    fromStrVec "<root/>" = .ok (1, []) ∧
    deUnit (tokenize "<root/>").2 [] = .error .unexpectedEof :=
  ⟨rfl, c8_vec_consumes_all "<root/>" 1 [] rfl⟩
